import Mathlib

/-!
Shallow embedding of `generate_chart.py` (eusport/sports_act_ua).

The script has two pure cores:
* `get_git_stats`: parses captured `git log --format=%ad --date=format:%Y
  --numstat --all` stdout into a year-keyed accumulator of additions/deletions,
  keeping only lines whose path contains "sports_act" (case-insensitively,
  via `.lower()`) or ends with ".md";
* `create_chart`: sorts the years and decides, per year, which bars to draw
  (an upward green bar when additions > 0, a downward red bar when the negated
  deletions are < 0).

Strings are modelled as `List Char` restricted to ASCII behaviour (the marker
substring, the extension, year digits and numstat fields are all ASCII).
Python `int` is modelled without underscore digit separators, which none of
the inputs of interest use.
-/

namespace GenerateChart

/-- Python `str.split(sep)` for a single-character separator: splits at every
occurrence, keeping empty pieces (`"".split(c) = [""]`). -/
def splitOnChar (c : Char) : List Char → List (List Char)
  | [] => [[]]
  | x :: xs =>
    match splitOnChar c xs with
    | [] => [[x]]
    | h :: t => if x = c then [] :: h :: t else (x :: h) :: t

/-- The whitespace set stripped by Python `str.strip()` (ASCII fragment). -/
def isPySpace (c : Char) : Bool :=
  c = ' ' || c = '\t' || c = '\n' || c = '\r' || c = '\x0b' || c = '\x0c'

/-- Python `str.strip()` (ASCII whitespace). -/
def pyStrip (s : List Char) : List Char :=
  ((s.dropWhile isPySpace).reverse.dropWhile isPySpace).reverse

/-- `re.match(r'^\d{4}$', line)`: the whole line is exactly four (ASCII)
digits. -/
def isYearLine (line : List Char) : Bool :=
  decide (line.length = 4) && line.all Char.isDigit

/-- Value of a nonempty all-digit string, as `int` reads it. -/
def pyIntDigits (ds : List Char) : Option Nat :=
  if !ds.isEmpty && ds.all Char.isDigit then
    some (ds.foldl (fun n c => 10 * n + (c.toNat - '0'.toNat)) 0)
  else none

/-- Python `int(s)` on ASCII strings (no underscore separators): strip
whitespace, optional sign, then a nonempty digit run; `none` models the
`ValueError` the script catches. Note `int("-5") = -5`: signs are accepted. -/
def pyInt (s : List Char) : Option Int :=
  match pyStrip s with
  | '-' :: rest => (pyIntDigits rest).map (fun n => -(n : Int))
  | '+' :: rest => (pyIntDigits rest).map (fun n => (n : Int))
  | t => (pyIntDigits t).map (fun n => (n : Int))

/-- `int(parts[i]) if parts[i] != '-' else 0`: the binary-file marker `-`
counts as zero, anything else goes through `int`. -/
def parseField (s : List Char) : Option Int :=
  if s = ['-'] then some 0 else pyInt s

/-- Substring containment, `needle in hay` of Python. -/
def containsSub (needle : List Char) : List Char → Bool
  | [] => needle.isEmpty
  | c :: cs => needle.isPrefixOf (c :: cs) || containsSub needle cs

/-- The file filter of line 36:
`'sports_act' in parts[-1].lower() or parts[-1].endswith('.md')`. -/
def fileFilter (path : List Char) : Bool :=
  containsSub ("sports_act".toList) (path.map Char.toLower)
    || List.isSuffixOf (".md".toList) path

/-- One year's accumulator record (the `defaultdict` payload
`{"additions": 0, "deletions": 0}`). `Int` because Python `int` is signed. -/
structure YearRec where
  additions : Int
  deletions : Int
deriving DecidableEq, Repr

/-- State of the parsing loop: the `stats` mapping (insertion-ordered
association list, keys unique) and the `current_year` cursor. -/
structure ExtractState where
  stats : List (List Char × YearRec)
  current_year : Option (List Char)
deriving DecidableEq, Repr

/-- `stats[current_year]["additions"] += additions` (and deletions) on a
`defaultdict`: update the existing entry in place, or append a fresh zero
entry and add to it. -/
def bump : List (List Char × YearRec) → List Char → Int → Int →
    List (List Char × YearRec)
  | [], y, a, d => [(y, ⟨0 + a, 0 + d⟩)]
  | (k, r) :: rest, y, a, d =>
    if k = y then (k, ⟨r.additions + a, r.deletions + d⟩) :: rest
    else (k, r) :: bump rest y a d

/-- The body of the `for line in result.stdout.split('\n')` loop
(lines 20-40 of the script), one line at a time. -/
def processLine (st : ExtractState) (raw : List Char) : ExtractState :=
  let line := pyStrip raw
  if line.isEmpty then st
  else if isYearLine line then { st with current_year := some line }
  else
    match st.current_year with
    | none => st
    | some year =>
      if line.contains '\t' then
        let parts := splitOnChar '\t' line
        if 2 ≤ parts.length then
          match parseField (parts.getD 0 []), parseField (parts.getD 1 []) with
          | some additions, some deletions =>
            if fileFilter (parts.getLastD []) then
              { st with stats := bump st.stats year additions deletions }
            else st
          | _, _ => st
        else st
      else st

/-- Run the loop from the initial state (`stats` empty, `current_year = None`). -/
def runExtract (lines : List (List Char)) : ExtractState :=
  lines.foldl processLine ⟨[], none⟩

/-- `get_git_stats`, as a function of the captured stdout text. -/
def get_git_statsLines (lines : List (List Char)) : List (List Char × YearRec) :=
  (runExtract lines).stats

/-- `get_git_stats` on the raw captured stream: split on newlines, fold the
loop, return the mapping. -/
def get_git_stats (stdout : String) : List (List Char × YearRec) :=
  get_git_statsLines (splitOnChar '\n' stdout.toList)

/-! ### Chart renderer (`create_chart`, lines 44-73)

Only the data-level decisions are embedded: which categories appear, in what
order, and which bars are drawn with what signed height and fill colour. -/

/-- Python string `<=` (lexicographic by code point), as a Bool. -/
def lexLe : List Char → List Char → Bool
  | [], _ => true
  | _ :: _, [] => false
  | a :: as, b :: bs => if a = b then lexLe as bs else decide (a < b)

/-- The propositional form of `lexLe`, used as the sorting relation. -/
def strLe (a b : List Char) : Prop := lexLe a b = true

instance : DecidableRel strLe := fun a b => by unfold strLe; infer_instance

/-- One `ax.bar(i, h, width, color=c, ...)` call: category index, signed
height, fill colour. -/
structure Bar where
  x : Nat
  height : Int
  color : List Char
deriving DecidableEq, Repr

/-- Fill colour of addition bars (line 65). -/
def colorGreen : List Char := "#90EE90".toList

/-- Fill colour of deletion bars (line 71). -/
def colorRed : List Char := "#FF7F7F".toList

/-- The `for i, (year, add, dele) in enumerate(zip(...))` drawing loop:
an upward bar when `add > 0`, a downward bar when `dele < 0`. -/
def drawBars : Nat → List (List Char × Int × Int) → List Bar
  | _, [] => []
  | i, (_, add, dele) :: rest =>
    (if 0 < add then [⟨i, add, colorGreen⟩] else [])
      ++ (if dele < 0 then [⟨i, dele, colorRed⟩] else [])
      ++ drawBars (i + 1) rest

/-- `sorted(stats.keys())`. -/
def chartYears (stats : List (List Char × YearRec)) : List (List Char) :=
  List.insertionSort strLe (stats.map Prod.fst)

/-- `stats[y]["additions"]` / `stats[y]["deletions"]` for a year taken from
the key list (total, with the never-used zero default). -/
def statsGet (stats : List (List Char × YearRec)) (y : List Char) : YearRec :=
  (List.lookup y stats).getD ⟨0, 0⟩

/-- `create_chart`'s bar list: sort the years, build the additions list and
the negated deletions list, and run the drawing loop. -/
def create_chart (stats : List (List Char × YearRec)) : List Bar :=
  let years := chartYears stats
  let additions := years.map (fun y => (statsGet stats y).additions)
  let deletions := years.map (fun y => -(statsGet stats y).deletions)
  drawBars 0 (years.zip (additions.zip deletions))

/-! ### Statement-side helpers -/

/-- Tab fields of a (stripped) line. -/
def lineParts (raw : List Char) : List (List Char) :=
  splitOnChar '\t' (pyStrip raw)

/-- A line that reaches the accumulation step whenever the cursor is set:
nonempty after strip, not a year line, contains a tab, splits into at least
two fields, both numeric fields parse, and the path passes the file filter. -/
def qualifies (raw : List Char) : Bool :=
  let line := pyStrip raw
  !line.isEmpty && !isYearLine line && line.contains '\t' &&
    (let parts := splitOnChar '\t' line
     decide (2 ≤ parts.length) && (parseField (parts.getD 0 [])).isSome &&
       (parseField (parts.getD 1 [])).isSome && fileFilter (parts.getLastD []))

/-- How one line moves the `current_year` cursor. -/
def nextCursor (cur : Option (List Char)) (raw : List Char) :
    Option (List Char) :=
  if isYearLine (pyStrip raw) then some (pyStrip raw) else cur

/-- Starting from cursor `cur`, no line of the list is a filter-passing
numstat line processed while the cursor is `Y`. -/
def noContrib (cur : Option (List Char)) (Y : List Char) :
    List (List Char) → Bool
  | [] => true
  | raw :: rest =>
    !(decide (cur = some Y) && qualifies raw) &&
      noContrib (nextCursor cur raw) Y rest

/-- Bool form of "this numstat field cannot parse to a negative number". -/
def fieldNonneg (s : List Char) : Bool :=
  match parseField s with
  | none => true
  | some k => decide (0 ≤ k)

/-- Both numeric fields of the line are `-`, digits, or otherwise non-negative
(true of every line real `git log --numstat` emits). -/
def lineNonneg (raw : List Char) : Bool :=
  fieldNonneg ((lineParts raw).getD 0 []) &&
    fieldNonneg ((lineParts raw).getD 1 [])

/-- The additions value a qualifying line contributes (`int(parts[0])`,
with `-` as 0). -/
def lineAdds (raw : List Char) : Int :=
  (parseField ((lineParts raw).getD 0 [])).getD 0

/-- The deletions value a qualifying line contributes (`int(parts[1])`,
with `-` as 0). -/
def lineDels (raw : List Char) : Int :=
  (parseField ((lineParts raw).getD 1 [])).getD 0

/-- Every record of the mapping has non-negative totals. -/
def statsNonneg (stats : List (List Char × YearRec)) : Prop :=
  ∀ p ∈ stats, 0 ≤ p.2.additions ∧ 0 ≤ p.2.deletions

/-- The worked example mapping of the spec:
`{"2022": {add:100, del:40}, "2023": {add:5, del:0}}`. -/
def exampleStats : List (List Char × YearRec) :=
  [("2022".toList, ⟨100, 40⟩), ("2023".toList, ⟨5, 0⟩)]

/-! ### Lemmas about the extractor -/

theorem lookup_cons_pair (y k : List Char) (r : YearRec)
    (s : List (List Char × YearRec)) :
    List.lookup y ((k, r) :: s) = if k = y then some r else List.lookup y s := by
  simp [List.lookup]
  split <;> rename_i h
  · simp [beq_iff_eq] at h; simp [h.symm]
  · simp [beq_iff_eq] at h; simp [Ne.symm h]

theorem lookup_bump_self (s : List (List Char × YearRec)) (y : List Char)
    (a d : Int) :
    List.lookup y (bump s y a d) =
      some ⟨(statsGet s y).additions + a, (statsGet s y).deletions + d⟩ := by
  induction s with
  | nil => simp [bump, statsGet, lookup_cons_pair]
  | cons p rest ih =>
    obtain ⟨k, r⟩ := p
    by_cases h : k = y
    · subst h
      simp [bump, statsGet, lookup_cons_pair]
    · simp [bump, h, statsGet, lookup_cons_pair, ih]

theorem lookup_bump_ne (s : List (List Char × YearRec)) (y Z : List Char)
    (a d : Int) (h : Z ≠ y) :
    List.lookup Z (bump s y a d) = List.lookup Z s := by
  induction s with
  | nil => simp [bump, lookup_cons_pair, Ne.symm h]
  | cons p rest ih =>
    obtain ⟨k, r⟩ := p
    by_cases hk : k = y
    · subst hk
      simp [bump, lookup_cons_pair, Ne.symm h]
    · by_cases hz : k = Z
      · subst hz
        simp [bump, hk, lookup_cons_pair]
      · simp [bump, hk, hz, lookup_cons_pair, ih]

theorem isYearLine_nil : isYearLine [] = false := rfl

theorem nextCursor_of_not_year (c : Option (List Char)) (raw : List Char)
    (h : isYearLine (pyStrip raw) = false) : nextCursor c raw = c := by
  simp [nextCursor, h]

theorem splitOnChar_ne_nil (c : Char) (l : List Char) :
    splitOnChar c l ≠ [] := by
  cases l with
  | nil => simp [splitOnChar]
  | cons x xs =>
    simp only [splitOnChar]
    split
    · simp
    · split <;> simp

theorem splitOnChar_length_of_mem (c : Char) (l : List Char) (h : c ∈ l) :
    2 ≤ (splitOnChar c l).length := by
  induction l with
  | nil => simp at h
  | cons x xs ih =>
    simp only [splitOnChar]
    by_cases hxc : x = c
    · cases hs : splitOnChar c xs with
      | nil => exact absurd hs (splitOnChar_ne_nil c xs)
      | cons a t => simp [hxc, hs]
    · have hmem : c ∈ xs := by
        rcases List.mem_cons.mp h with h1 | h2
        · exact absurd h1.symm hxc
        · exact h2
      have hlen := ih hmem
      cases hs : splitOnChar c xs with
      | nil => exact absurd hs (splitOnChar_ne_nil c xs)
      | cons a t =>
        rw [hs] at hlen
        simp [hxc, hs] at hlen ⊢
        omega

/-- Master step lemma: one loop iteration either accumulates a qualifying
line under the current cursor, or only moves the cursor. -/
theorem processLine_eq (st : ExtractState) (raw : List Char) :
    processLine st raw =
      if qualifies raw then
        match st.current_year with
        | none => st
        | some y =>
          { st with stats := bump st.stats y (lineAdds raw) (lineDels raw) }
      else { st with current_year := nextCursor st.current_year raw } := by
  cases h1 : (pyStrip raw).isEmpty with
  | true =>
    have hnil : pyStrip raw = [] := by simpa using h1
    simp [processLine, qualifies, nextCursor, hnil, isYearLine_nil]
  | false =>
    cases h2 : isYearLine (pyStrip raw) with
    | true => simp [processLine, qualifies, nextCursor, h1, h2]
    | false =>
      have heta :
          ({ st with current_year := nextCursor st.current_year raw } :
            ExtractState) = st := by
        rw [nextCursor_of_not_year _ _ h2]
      rw [heta]
      by_cases h3 : '\t' ∈ pyStrip raw
      · have h4 : 2 ≤ (splitOnChar '\t' (pyStrip raw)).length :=
          splitOnChar_length_of_mem _ _ h3
        cases hc : st.current_year with
        | none =>
          cases hq : qualifies raw <;> simp [processLine, h1, h2, hc, hq]
        | some y =>
          cases hp0 : parseField ((splitOnChar '\t' (pyStrip raw))[0]?.getD []) with
          | none => simp [processLine, qualifies, h1, h2, h3, h4, hc, hp0]
          | some a =>
            cases hp1 : parseField ((splitOnChar '\t' (pyStrip raw))[1]?.getD []) with
            | none => simp [processLine, qualifies, h1, h2, h3, h4, hc, hp0, hp1]
            | some d =>
              cases h5 : fileFilter ((splitOnChar '\t' (pyStrip raw)).getLast?.getD []) with
              | false =>
                simp [processLine, qualifies, h1, h2, h3, h4, hc, hp0, hp1, h5]
              | true =>
                simp [processLine, qualifies, h1, h2, h3, h4, hc, hp0, hp1, h5,
                  lineAdds, lineDels, lineParts]
      · have hq : qualifies raw = false := by simp [qualifies, h1, h2, h3]
        rw [hq]
        cases hc : st.current_year <;> simp [processLine, h1, h2, hc, h3]

theorem not_year_of_qualifies (raw : List Char) (h : qualifies raw = true) :
    isYearLine (pyStrip raw) = false := by
  cases hy : isYearLine (pyStrip raw) with
  | false => rfl
  | true => simp [qualifies, hy] at h

theorem not_year_of_tab (l : List Char) (h : '\t' ∈ l) :
    isYearLine l = false := by
  have hall : l.all Char.isDigit = false := by
    cases ha : l.all Char.isDigit
    · rfl
    · exact absurd (List.all_eq_true.mp ha '\t' h) (by decide)
  simp [isYearLine, hall]

theorem processLine_current_year (st : ExtractState) (raw : List Char) :
    (processLine st raw).current_year = nextCursor st.current_year raw := by
  rw [processLine_eq]
  cases hq : qualifies raw with
  | true =>
    rw [if_pos rfl, nextCursor_of_not_year _ _ (not_year_of_qualifies raw hq)]
    cases hc : st.current_year <;> simp [hc]
  | false => rw [if_neg (by simp)]

theorem processLine_stats_of_not_qualifies (st : ExtractState)
    (raw : List Char) (h : qualifies raw = false) :
    (processLine st raw).stats = st.stats := by
  rw [processLine_eq, if_neg (by simp [h])]

theorem lookup_processLine_preserved (st : ExtractState) (raw Y : List Char)
    (h : st.current_year ≠ some Y ∨ qualifies raw = false) :
    List.lookup Y (processLine st raw).stats = List.lookup Y st.stats := by
  rcases h with h | h
  · rw [processLine_eq]
    cases hq : qualifies raw with
    | false => simp
    | true =>
      rw [if_pos rfl]
      cases hc : st.current_year with
      | none => rfl
      | some y =>
        have hy : Y ≠ y := by
          intro e
          exact h (e ▸ hc)
        simp [lookup_bump_ne st.stats y Y _ _ hy]
  · rw [processLine_stats_of_not_qualifies st raw h]

theorem processLine_none_cursor (st : ExtractState) (raw : List Char)
    (hc : st.current_year = none) (h : isYearLine (pyStrip raw) = false) :
    processLine st raw = st := by
  rw [processLine_eq]
  cases hq : qualifies raw with
  | true =>
    rw [if_pos rfl, hc]
  | false =>
    rw [if_neg (by simp), nextCursor_of_not_year _ _ h]

theorem lookup_foldl_of_noContrib (L : List (List Char)) (st : ExtractState)
    (Y : List Char) (h : noContrib st.current_year Y L = true) :
    List.lookup Y (L.foldl processLine st).stats = List.lookup Y st.stats := by
  induction L generalizing st with
  | nil => rfl
  | cons raw rest ih =>
    simp only [noContrib, Bool.and_eq_true, Bool.not_eq_true'] at h
    obtain ⟨h1, h2⟩ := h
    rw [List.foldl_cons,
      ih (processLine st raw) (by rw [processLine_current_year]; exact h2)]
    rcases Bool.and_eq_false_iff.mp h1 with hne | hnq
    · exact lookup_processLine_preserved st raw Y
        (Or.inl (by simpa using hne))
    · exact lookup_processLine_preserved st raw Y (Or.inr hnq)

theorem lineNonneg_vals (raw : List Char) (h : lineNonneg raw = true) :
    0 ≤ lineAdds raw ∧ 0 ≤ lineDels raw := by
  simp only [lineNonneg, Bool.and_eq_true] at h
  obtain ⟨h0, h1⟩ := h
  constructor
  · unfold lineAdds
    unfold fieldNonneg at h0
    cases hp : parseField ((lineParts raw).getD 0 []) with
    | none => simp
    | some k =>
      rw [hp] at h0
      simpa using of_decide_eq_true h0
  · unfold lineDels
    unfold fieldNonneg at h1
    cases hp : parseField ((lineParts raw).getD 1 []) with
    | none => simp
    | some k =>
      rw [hp] at h1
      simpa using of_decide_eq_true h1

theorem statsNonneg_bump (s : List (List Char × YearRec)) (y : List Char)
    (a d : Int) (hs : statsNonneg s) (ha : 0 ≤ a) (hd : 0 ≤ d) :
    statsNonneg (bump s y a d) := by
  induction s with
  | nil =>
    intro p hp
    simp [bump] at hp
    simp [hp, ha, hd]
  | cons q rest ih =>
    have hs' : statsNonneg rest := fun p hp => hs p (List.mem_cons_of_mem _ hp)
    intro p hp
    obtain ⟨k, r⟩ := q
    have hkr := hs (k, r) (List.mem_cons_self _ _)
    by_cases hk : k = y
    · subst hk
      rw [bump, if_pos rfl] at hp
      rcases List.mem_cons.mp hp with hp | hp
      · subst hp
        constructor
        · simpa using add_nonneg hkr.1 ha
        · simpa using add_nonneg hkr.2 hd
      · exact hs p (List.mem_cons_of_mem _ hp)
    · rw [bump, if_neg hk] at hp
      rcases List.mem_cons.mp hp with hp | hp
      · subst hp; exact hkr
      · exact ih hs' p hp

theorem statsNonneg_processLine (st : ExtractState) (raw : List Char)
    (hs : statsNonneg st.stats) (h : lineNonneg raw = true) :
    statsNonneg (processLine st raw).stats := by
  rw [processLine_eq]
  cases hq : qualifies raw with
  | false => rw [if_neg (by simp)]; exact hs
  | true =>
    rw [if_pos rfl]
    cases hc : st.current_year with
    | none => exact hs
    | some y =>
      obtain ⟨ha, hd⟩ := lineNonneg_vals raw h
      exact statsNonneg_bump st.stats y _ _ hs ha hd

theorem statsNonneg_foldl (L : List (List Char)) (st : ExtractState)
    (hs : statsNonneg st.stats) (h : ∀ raw ∈ L, lineNonneg raw = true) :
    statsNonneg (L.foldl processLine st).stats := by
  induction L generalizing st with
  | nil => exact hs
  | cons raw rest ih =>
    rw [List.foldl_cons]
    exact ih (processLine st raw)
      (statsNonneg_processLine st raw hs (h raw (List.mem_cons_self _ _)))
      (fun l hl => h l (List.mem_cons_of_mem _ hl))

/-! ### Lemmas about the renderer -/

theorem lexLe_total : ∀ a b : List Char, strLe a b ∨ strLe b a := by
  intro a
  induction a with
  | nil => intro b; left; rfl
  | cons x as ih =>
    intro b
    cases b with
    | nil => right; rfl
    | cons y bs =>
      by_cases hxy : x = y
      · subst hxy
        rcases ih bs with h | h
        · left; simpa [strLe, lexLe] using h
        · right; simpa [strLe, lexLe] using h
      · rcases lt_trichotomy x y with h | h | h
        · left; simp [strLe, lexLe, hxy, h]
        · exact absurd h hxy
        · right; simp [strLe, lexLe, Ne.symm hxy, h]

theorem lexLe_trans :
    ∀ a b c : List Char, strLe a b → strLe b c → strLe a c := by
  intro a
  induction a with
  | nil => intro b c _ _; rfl
  | cons x as ih =>
    intro b c hab hbc
    cases b with
    | nil => simp [strLe, lexLe] at hab
    | cons y bs =>
      cases c with
      | nil => simp [strLe, lexLe] at hbc
      | cons z cs =>
        by_cases hxy : x = y
        · subst hxy
          simp only [strLe, lexLe, if_pos rfl] at hab
          by_cases hxz : x = z
          · subst hxz
            simp only [strLe, lexLe, if_pos rfl] at hbc ⊢
            exact ih bs cs hab hbc
          · simp only [strLe, lexLe, if_neg hxz] at hbc ⊢
            exact hbc
        · simp only [strLe, lexLe, if_neg hxy] at hab
          have hlt : x < y := of_decide_eq_true hab
          by_cases hyz : y = z
          · subst hyz
            simp [strLe, lexLe, hxy, hlt]
          · simp only [strLe, lexLe, if_neg hyz] at hbc
            have hlt2 : y < z := of_decide_eq_true hbc
            have hxz : x < z := lt_trans hlt hlt2
            simp [strLe, lexLe, ne_of_lt hxz, hxz]

instance : IsTotal (List Char) strLe := ⟨lexLe_total⟩

instance : IsTrans (List Char) strLe := ⟨lexLe_trans⟩

theorem chartYears_sorted (stats : List (List Char × YearRec)) :
    List.Sorted strLe (chartYears stats) :=
  List.sorted_insertionSort strLe (stats.map Prod.fst)

theorem chartYears_perm (stats : List (List Char × YearRec)) :
    (chartYears stats).Perm (stats.map Prod.fst) :=
  List.perm_insertionSort strLe (stats.map Prod.fst)

theorem getElem?_zipPair {α β : Type} (as : List α) (bs : List β) (i : Nat) :
    (as.zip bs)[i]? =
      Option.bind as[i]? (fun a => Option.map (fun b => (a, b)) bs[i]?) := by
  induction as generalizing bs i with
  | nil => simp
  | cons a as ih =>
    cases bs with
    | nil => simp
    | cons b bs =>
      cases i with
      | zero => simp
      | succ n => simpa using ih bs n

theorem mem_drawBars (b : Bar) (k : Nat) (ts : List (List Char × Int × Int)) :
    b ∈ drawBars k ts ↔
      ∃ j y a d, ts[j]? = some (y, a, d) ∧ b.x = k + j ∧
        ((b.color = colorGreen ∧ b.height = a ∧ 0 < a) ∨
          (b.color = colorRed ∧ b.height = d ∧ d < 0)) := by
  obtain ⟨bx, bh, bc⟩ := b
  induction ts generalizing k with
  | nil => simp [drawBars]
  | cons t rest ih =>
    obtain ⟨y, a, d⟩ := t
    constructor
    · intro hb
      simp only [drawBars, List.mem_append] at hb
      rcases hb with (hb | hb) | hb
      · by_cases ha : 0 < a
        · rw [if_pos ha] at hb
          simp only [List.mem_singleton, Bar.mk.injEq] at hb
          obtain ⟨h1, h2, h3⟩ := hb
          exact ⟨0, y, a, d, by simp, by simp [h1], Or.inl ⟨h3, h2, ha⟩⟩
        · rw [if_neg ha] at hb; simp at hb
      · by_cases hd : d < 0
        · rw [if_pos hd] at hb
          simp only [List.mem_singleton, Bar.mk.injEq] at hb
          obtain ⟨h1, h2, h3⟩ := hb
          exact ⟨0, y, a, d, by simp, by simp [h1], Or.inr ⟨h3, h2, hd⟩⟩
        · rw [if_neg hd] at hb; simp at hb
      · rcases (ih (k + 1)).mp hb with ⟨j, y', a', d', hj, hx, hc⟩
        refine ⟨j + 1, y', a', d', by simpa using hj, by omega, hc⟩
    · rintro ⟨j, y', a', d', hj, hx, hc⟩
      simp only [drawBars, List.mem_append]
      cases j with
      | zero =>
        simp only [List.getElem?_cons_zero, Option.some.injEq, Prod.mk.injEq] at hj
        obtain ⟨hy, hha, hhd⟩ := hj
        rcases hc with ⟨hcol, hh, hpos⟩ | ⟨hcol, hh, hneg⟩
        · left; left
          rw [if_pos (hha ▸ hpos)]
          simp only [List.mem_singleton, Bar.mk.injEq]
          exact ⟨by simpa using hx, by simpa [hha] using hh, by simpa using hcol⟩
        · left; right
          rw [if_pos (hhd ▸ hneg)]
          simp only [List.mem_singleton, Bar.mk.injEq]
          exact ⟨by simpa using hx, by simpa [hhd] using hh, by simpa using hcol⟩
      | succ n =>
        right
        refine (ih (k + 1)).mpr ⟨n, y', a', d', by simpa using hj, by omega, hc⟩

theorem qualifies_of_parts (raw : List Char) (a d : Int)
    (htab : '\t' ∈ pyStrip raw)
    (ha : parseField ((lineParts raw).getD 0 []) = some a)
    (hd : parseField ((lineParts raw).getD 1 []) = some d)
    (hf : fileFilter ((lineParts raw).getLastD []) = true) :
    qualifies raw = true := by
  have hyear := not_year_of_tab _ htab
  have hne : (pyStrip raw).isEmpty = false := by
    cases he : (pyStrip raw).isEmpty
    · rfl
    · have hz : pyStrip raw = [] := by simpa using he
      rw [hz] at htab
      simp at htab
  have hlen := splitOnChar_length_of_mem _ _ htab
  have hcont : (pyStrip raw).contains '\t' = true := by simpa using htab
  unfold lineParts at ha hd hf
  simp only [qualifies]
  rw [hne, hyear, hcont, ha, hd, hf]
  simp [hlen]

theorem qualifies_eq_false_of_filter (raw : List Char)
    (hf : fileFilter ((lineParts raw).getLastD []) = false) :
    qualifies raw = false := by
  unfold lineParts at hf
  simp only [qualifies]
  rw [hf]
  simp

theorem qualifies_eq_false_of_bad_field (raw : List Char)
    (hbad : parseField ((lineParts raw).getD 0 []) = none ∨
      parseField ((lineParts raw).getD 1 []) = none) :
    qualifies raw = false := by
  unfold lineParts at hbad
  simp only [qualifies]
  rcases hbad with h | h <;> rw [h] <;> simp

theorem processLine_qualifies_some (st : ExtractState) (raw Y : List Char)
    (hq : qualifies raw = true) (hY : st.current_year = some Y) :
    (processLine st raw).stats =
      bump st.stats Y (lineAdds raw) (lineDels raw) := by
  rw [processLine_eq, if_pos hq, hY]

theorem lookup_processLine_qualifying (st : ExtractState) (raw Y : List Char)
    (a d : Int)
    (hY : st.current_year = some Y) (htab : '\t' ∈ pyStrip raw)
    (ha : parseField ((lineParts raw).getD 0 []) = some a)
    (hd : parseField ((lineParts raw).getD 1 []) = some d)
    (hf : fileFilter ((lineParts raw).getLastD []) = true) :
    List.lookup Y (processLine st raw).stats =
      some ⟨(statsGet st.stats Y).additions + a,
        (statsGet st.stats Y).deletions + d⟩ := by
  have hq := qualifies_of_parts raw a d htab ha hd hf
  rw [processLine_qualifies_some st raw Y hq hY, lookup_bump_self]
  unfold lineAdds lineDels
  rw [ha, hd]
  rfl

theorem processLine_id_of_skip (st : ExtractState) (raw : List Char)
    (hq : qualifies raw = false) (hy : isYearLine (pyStrip raw) = false) :
    processLine st raw = st := by
  rw [processLine_eq, if_neg (by simp [hq]), nextCursor_of_not_year _ _ hy]

theorem foldl_no_year (pre : List (List Char)) (st : ExtractState)
    (hc : st.current_year = none)
    (h : ∀ l ∈ pre, isYearLine (pyStrip l) = false) :
    pre.foldl processLine st = st := by
  induction pre with
  | nil => rfl
  | cons l ls ih =>
    rw [List.foldl_cons,
      processLine_none_cursor st l hc (h l (List.mem_cons_self _ _))]
    exact ih (fun x hx => h x (List.mem_cons_of_mem _ hx))

/-! ### The claims -/

/-- C1: while the cursor is `Y`, a well-formed numstat line whose first two
tab fields parse to `a` and `d` adds exactly `a` additions and `d` deletions
to `Y`'s accumulator when its path passes the file filter (contains
"sports_act" case-insensitively or ends in ".md"), and leaves the mapping
unchanged when it does not. -/
theorem claim1_numstat_accumulation (st : ExtractState) (raw Y : List Char)
    (a d : Int)
    (hY : st.current_year = some Y)
    (htab : '\t' ∈ pyStrip raw)
    (ha : parseField ((lineParts raw).getD 0 []) = some a)
    (hd : parseField ((lineParts raw).getD 1 []) = some d) :
    (fileFilter ((lineParts raw).getLastD []) = true →
      List.lookup Y (processLine st raw).stats =
        some ⟨(statsGet st.stats Y).additions + a,
          (statsGet st.stats Y).deletions + d⟩) ∧
    (fileFilter ((lineParts raw).getLastD []) = false →
      (processLine st raw).stats = st.stats) :=
  ⟨fun hf => lookup_processLine_qualifying st raw Y a d hY htab ha hd hf,
   fun hf => processLine_stats_of_not_qualifies st raw
     (qualifies_eq_false_of_filter raw hf)⟩

/-- Witness for C1: under cursor 2023 with totals (10, 20), the line
`"3\t4\tsports_act.md"` moves the totals to (13, 24). -/
theorem claim1_witness :
    List.lookup "2023".toList
      (processLine ⟨[("2023".toList, ⟨10, 20⟩)], some "2023".toList⟩
        "3\t4\tsports_act.md".toList).stats = some ⟨13, 24⟩ :=
  (claim1_numstat_accumulation
    ⟨[("2023".toList, ⟨10, 20⟩)], some "2023".toList⟩
    "3\t4\tsports_act.md".toList "2023".toList 3 4 rfl (by decide)
    (by decide) (by decide)).1 (by decide)

/-- C2 as stated is false: Python `int` accepts a sign, so the stream
`"2023\n-5\t1\tx.md"` produces a record with additions = -5 < 0. -/
theorem claim2_counterexample :
    ∃ p ∈ get_git_stats "2023\n-5\t1\tx.md", p.2.additions < 0 := by
  refine ⟨("2023".toList, ⟨-5, 1⟩), ?_, by decide⟩
  have h : get_git_stats "2023\n-5\t1\tx.md" =
      [("2023".toList, ⟨-5, 1⟩)] := by decide
  rw [h]
  exact List.mem_singleton.mpr rfl

/-- C2 amended: on any stream whose first two tab fields never parse to a
negative integer (true of genuine numstat output, whose fields are digit
runs or `-`), every record of the returned mapping has additions ≥ 0 and
deletions ≥ 0. -/
theorem claim2_amended_nonneg (stdout : String)
    (h : ∀ raw ∈ splitOnChar '\n' stdout.toList, lineNonneg raw = true) :
    ∀ p ∈ get_git_stats stdout, 0 ≤ p.2.additions ∧ 0 ≤ p.2.deletions :=
  statsNonneg_foldl (splitOnChar '\n' stdout.toList) ⟨[], none⟩
    (fun p hp => absurd hp (List.not_mem_nil p)) h

/-- Witness for the amended C2 on a digits-only stream. -/
theorem claim2_amended_witness :
    0 ≤ (statsGet (get_git_stats "2023\n3\t4\tsports_act.md")
      "2023".toList).additions :=
  (claim2_amended_nonneg "2023\n3\t4\tsports_act.md" (by decide)
    ("2023".toList, ⟨3, 4⟩) (by decide)).1

/-- C3 as stated is false: in `"2023\n2023\n1\t2\tx.md"` the first cursor
line "2023" is followed by no numstat line at all before the next cursor
line, yet the returned mapping does contain the key "2023" (set by the
second occurrence of the same year). -/
theorem claim3_counterexample :
    isYearLine (pyStrip "2023".toList) = true ∧
    List.lookup "2023".toList (get_git_stats "2023\n2023\n1\t2\tx.md") =
      some ⟨1, 2⟩ := by
  constructor
  · decide
  · decide

/-- C3 amended: if no filter-passing numstat line is processed while the
cursor is `Y` anywhere in the stream (in particular, when every cursor
occurrence of `Y` is followed by no qualifying line before the next cursor),
then `Y` is absent from the returned mapping — not present with zeros. -/
theorem claim3_amended_absent (stdout : String) (Y : List Char)
    (h : noContrib none Y (splitOnChar '\n' stdout.toList) = true) :
    List.lookup Y (get_git_stats stdout) = none := by
  unfold get_git_stats get_git_statsLines runExtract
  rw [lookup_foldl_of_noContrib _ _ _ h]
  rfl

/-- Witness for the amended C3: year 2022 whose only numstat line fails the
filter is absent from the mapping. -/
theorem claim3_amended_witness :
    List.lookup "2022".toList
      (get_git_stats "2022\n1\t2\tplain.txt\n2023") = none :=
  claim3_amended_absent "2022\n1\t2\tplain.txt\n2023" "2022".toList
    (by decide)

/-- C4: on a filter-passing numstat line processed under cursor `Y`, a `-`
marker in either numeric field contributes 0 for that field while the other
field still contributes its parsed value. -/
theorem claim4_dash_field_zero (st : ExtractState) (raw Y : List Char)
    (hY : st.current_year = some Y)
    (htab : '\t' ∈ pyStrip raw)
    (hfilt : fileFilter ((lineParts raw).getLastD []) = true) :
    ((lineParts raw).getD 0 [] = ['-'] →
      ∀ d : Int, parseField ((lineParts raw).getD 1 []) = some d →
        List.lookup Y (processLine st raw).stats =
          some ⟨(statsGet st.stats Y).additions,
            (statsGet st.stats Y).deletions + d⟩) ∧
    ((lineParts raw).getD 1 [] = ['-'] →
      ∀ a : Int, parseField ((lineParts raw).getD 0 []) = some a →
        List.lookup Y (processLine st raw).stats =
          some ⟨(statsGet st.stats Y).additions + a,
            (statsGet st.stats Y).deletions⟩) := by
  constructor
  · intro h0 d hd
    have ha : parseField ((lineParts raw).getD 0 []) = some 0 := by
      rw [h0]; rfl
    have h := lookup_processLine_qualifying st raw Y 0 d hY htab ha hd hfilt
    simpa using h
  · intro h1 a ha
    have hd : parseField ((lineParts raw).getD 1 []) = some 0 := by
      rw [h1]; rfl
    have h := lookup_processLine_qualifying st raw Y a 0 hY htab ha hd hfilt
    simpa using h

/-- Witness for C4: `"-\t7\tsports_act.md"` under cursor 2023 with totals
(1, 2) gives totals (1, 9): the `-` additions field contributes 0, the
deletions field its parsed 7. -/
theorem claim4_witness :
    List.lookup "2023".toList
      (processLine ⟨[("2023".toList, ⟨1, 2⟩)], some "2023".toList⟩
        "-\t7\tsports_act.md".toList).stats = some ⟨1, 9⟩ :=
  (claim4_dash_field_zero ⟨[("2023".toList, ⟨1, 2⟩)], some "2023".toList⟩
    "-\t7\tsports_act.md".toList "2023".toList rfl (by decide) (by decide)).1
    (by decide) 7 (by decide)

/-- C5: a tab-containing line whose first two fields do not both parse (and
are not `-`) is a complete no-op — it changes no state at all — and deleting
it from the stream leaves the extracted mapping unchanged, so extraction
continues with subsequent lines and surfaces no error. -/
theorem claim5_malformed_line_skipped (raw : List Char)
    (htab : '\t' ∈ pyStrip raw)
    (hbad : parseField ((lineParts raw).getD 0 []) = none ∨
      parseField ((lineParts raw).getD 1 []) = none) :
    (∀ st : ExtractState, processLine st raw = st) ∧
    ∀ pre post : List (List Char),
      get_git_statsLines (pre ++ raw :: post) =
        get_git_statsLines (pre ++ post) := by
  have hid : ∀ st : ExtractState, processLine st raw = st := fun st =>
    processLine_id_of_skip st raw (qualifies_eq_false_of_bad_field raw hbad)
      (not_year_of_tab _ htab)
  refine ⟨hid, fun pre post => ?_⟩
  unfold get_git_statsLines runExtract
  rw [List.foldl_append, List.foldl_append, List.foldl_cons,
    hid (pre.foldl processLine ⟨[], none⟩)]

/-- Witness for C5: dropping the malformed `"abc\t1\tfile.md"` does not
change the result, per the spec's own example. -/
theorem claim5_witness :
    get_git_statsLines ["2023".toList, "abc\t1\tfile.md".toList,
        "1\t1\ta.md".toList] =
      get_git_statsLines ["2023".toList, "1\t1\ta.md".toList] :=
  (claim5_malformed_line_skipped "abc\t1\tfile.md".toList (by decide)
    (Or.inl (by decide))).2 ["2023".toList] ["1\t1\ta.md".toList]

/-- C6: the rendered categories are the years in lexicographically sorted
order (a permutation of the mapping's keys), and at each category position
an upward green bar of height `additions` is drawn iff additions > 0, and a
downward red bar of height `-deletions` is drawn iff deletions > 0. -/
theorem claim6_chart_bars (stats : List (List Char × YearRec)) :
    List.Sorted strLe (chartYears stats) ∧
    (chartYears stats).Perm (stats.map Prod.fst) ∧
    ∀ (i : Nat) (y : List Char), (chartYears stats)[i]? = some y →
      (((⟨i, (statsGet stats y).additions, colorGreen⟩ : Bar) ∈
          create_chart stats) ↔ 0 < (statsGet stats y).additions) ∧
      (((⟨i, -(statsGet stats y).deletions, colorRed⟩ : Bar) ∈
          create_chart stats) ↔ 0 < (statsGet stats y).deletions) := by
  refine ⟨chartYears_sorted stats, chartYears_perm stats, ?_⟩
  intro i y hy
  have hts : ((chartYears stats).zip
      (((chartYears stats).map (fun z => (statsGet stats z).additions)).zip
        ((chartYears stats).map (fun z => -(statsGet stats z).deletions))))[i]? =
      some (y, (statsGet stats y).additions,
        -(statsGet stats y).deletions) := by
    rw [getElem?_zipPair, getElem?_zipPair, List.getElem?_map,
      List.getElem?_map, hy]
    rfl
  simp only [create_chart]
  constructor
  · rw [mem_drawBars]
    constructor
    · rintro ⟨j, y', a', d', hj, hx, hc⟩
      have hji : j = i := by simpa using hx.symm
      subst hji
      rw [hts] at hj
      obtain ⟨hy', ha', hd'⟩ : y' = y ∧ a' = (statsGet stats y).additions ∧
          d' = -(statsGet stats y).deletions := by
        simpa [Prod.ext_iff] using hj.symm
      rcases hc with ⟨_, _, hpos⟩ | ⟨hcol, _, _⟩
      · exact ha' ▸ hpos
      · have hcc : colorGreen = colorRed := by simpa using hcol
        exact absurd hcc (by decide)
    · intro hpos
      exact ⟨i, y, (statsGet stats y).additions, -(statsGet stats y).deletions,
        hts, by simp, Or.inl ⟨rfl, rfl, hpos⟩⟩
  · rw [mem_drawBars]
    constructor
    · rintro ⟨j, y', a', d', hj, hx, hc⟩
      have hji : j = i := by simpa using hx.symm
      subst hji
      rw [hts] at hj
      obtain ⟨hy', ha', hd'⟩ : y' = y ∧ a' = (statsGet stats y).additions ∧
          d' = -(statsGet stats y).deletions := by
        simpa [Prod.ext_iff] using hj.symm
      rcases hc with ⟨hcol, _, _⟩ | ⟨_, _, hneg⟩
      · have hcc : colorRed = colorGreen := by simpa using hcol
        exact absurd hcc (by decide)
      · rw [hd'] at hneg
        exact neg_lt_zero.mp hneg
    · intro hpos
      exact ⟨i, y, (statsGet stats y).additions, -(statsGet stats y).deletions,
        hts, by simp, Or.inr ⟨rfl, rfl, neg_lt_zero.mpr hpos⟩⟩

/-- Witness for C6 on the spec's example mapping: 2022 gets an upward bar of
100 and a downward bar of -40; 2023 gets no downward bar since its
deletions are 0. -/
theorem claim6_witness :
    ((⟨0, 100, colorGreen⟩ : Bar) ∈ create_chart exampleStats) ∧
    ((⟨0, -40, colorRed⟩ : Bar) ∈ create_chart exampleStats) ∧
    ¬ ((⟨1, 0, colorRed⟩ : Bar) ∈ create_chart exampleStats) := by
  have h := (claim6_chart_bars exampleStats).2.2
  have h0 := h 0 "2022".toList (by decide)
  have h1 := h 1 "2023".toList (by decide)
  refine ⟨h0.1.mpr (by decide), h0.2.mpr (by decide), fun hmem => ?_⟩
  exact absurd (h1.2.mp hmem) (by decide)

/-- C7: extraction is a pure function of the captured stdout text in this
embedding, so two applications to the same stream agree definitionally. -/
theorem claim7_deterministic (stdout : String) :
    get_git_stats stdout = get_git_stats stdout := rfl

/-- C8: an empty captured stream parses to the empty mapping with no error;
the embedding consumes the stdout text unconditionally, mirroring the
script's unchecked `subprocess.run` result. -/
theorem claim8_empty_stream : get_git_stats "" = [] := by decide

/-- C9: lines appearing before the first 4-digit year line are ignored
entirely: deleting that whole prefix leaves the extracted mapping unchanged
(with `current_year = None`, no numstat branch ever fires). -/
theorem claim9_prefix_ignored (pre rest : List (List Char))
    (h : ∀ l ∈ pre, isYearLine (pyStrip l) = false) :
    get_git_statsLines (pre ++ rest) = get_git_statsLines rest := by
  unfold get_git_statsLines runExtract
  rw [List.foldl_append, foldl_no_year pre ⟨[], none⟩ rfl h]

/-- Witness for C9: a qualifying numstat line before any year line
contributes nothing. -/
theorem claim9_witness :
    get_git_statsLines ["5\t6\tsports_act.md".toList, "2023".toList,
        "1\t1\ta.md".toList] =
      get_git_statsLines ["2023".toList, "1\t1\ta.md".toList] :=
  claim9_prefix_ignored ["5\t6\tsports_act.md".toList]
    ["2023".toList, "1\t1\ta.md".toList] (by decide)

/-- C10: a filter-passing line with `-` in both numeric fields creates an
entry with totals (0, 0) for the current year when that year was absent, so
a year can be present in the mapping with both totals zero. -/
theorem claim10_binary_marker_zero_entry (st : ExtractState)
    (raw Y : List Char)
    (hY : st.current_year = some Y)
    (habs : List.lookup Y st.stats = none)
    (htab : '\t' ∈ pyStrip raw)
    (h0 : (lineParts raw).getD 0 [] = ['-'])
    (h1 : (lineParts raw).getD 1 [] = ['-'])
    (hf : fileFilter ((lineParts raw).getLastD []) = true) :
    List.lookup Y (processLine st raw).stats = some ⟨0, 0⟩ := by
  have ha : parseField ((lineParts raw).getD 0 []) = some 0 := by
    rw [h0]; rfl
  have hd : parseField ((lineParts raw).getD 1 []) = some 0 := by
    rw [h1]; rfl
  have h := lookup_processLine_qualifying st raw Y 0 0 hY htab ha hd hf
  rw [h]
  simp [statsGet, habs]

/-- Witness for C10: `"-\t-\tsports_act.md"` under a fresh cursor 2023
creates the entry 2023 ↦ (0, 0). -/
theorem claim10_witness :
    List.lookup "2023".toList
      (processLine ⟨[], some "2023".toList⟩
        "-\t-\tsports_act.md".toList).stats = some ⟨0, 0⟩ :=
  claim10_binary_marker_zero_entry ⟨[], some "2023".toList⟩
    "-\t-\tsports_act.md".toList "2023".toList rfl rfl (by decide)
    (by decide) (by decide) (by decide)

end GenerateChart
